import Mathlib

/-
Shallow embedding of `src/testfolder/buffer_mgr.c`: a buffer pool manager
with five page replacement policies (FIFO, LRU, LRU-K, LFU, CLOCK).

The C code keeps its bookkeeping in global variables (`bufferSize`,
`rearIndex`, `writeCount`, `hit`, `clockPointer`, `lfuPointer`) next to the
frame array hanging off `BM_BufferPool.mgmtData`; the embedding folds those
globals and the pool into one record `BMState` (the C `bufferSize` global is
`frames.length`, `mgmtData == NULL` is `isOpen = false`).  The storage
manager is the external page store: it is modelled as a map from page
numbers to abstract block contents, and every `readBlock` / `writeBlock`
call is recorded in an event trace so that temporal claims about I/O can be
stated.  C `int` fields are modelled as `Int`; loop indices and the two
cursor globals, which are always non-negative, as `Nat`.
-/

namespace BufMgr

/-- Abstract contents of one fixed-size block (`SM_PageHandle` target). -/
abbrev Data := Int

/-- `ReplacementStrategy` from `buffer_mgr.h`. -/
inductive ReplacementStrategy
  | RS_FIFO
  | RS_LRU
  | RS_CLOCK
  | RS_LFU
  | RS_LRU_K
deriving DecidableEq

export ReplacementStrategy (RS_FIFO RS_LRU RS_CLOCK RS_LFU RS_LRU_K)

/-- Return codes used by `buffer_mgr.c`. -/
inductive RC
  | RC_OK
  | RC_ERROR
  | RC_POOL_NOT_OPEN
  | RC_PAGE_NOT_PINNED
  | RC_PAGE_NOT_IN_FRAMELIST
  | RC_NEGATIVE_PAGE_NUM
  | RC_PINNED_PAGES_IN_BUFFER
  | RC_BUFFER_POOL_SHUTDOWN_ERROR
deriving DecidableEq

export RC (RC_OK RC_ERROR RC_POOL_NOT_OPEN RC_PAGE_NOT_PINNED
  RC_PAGE_NOT_IN_FRAMELIST RC_NEGATIVE_PAGE_NUM RC_PINNED_PAGES_IN_BUFFER
  RC_BUFFER_POOL_SHUTDOWN_ERROR)

/-- The `PageFrame` struct: one buffer pool slot.  `data = none` models a
NULL buffer pointer; otherwise `some d` holds the buffer's contents. -/
structure PageFrame where
  pageNum : Int
  data : Option Data
  dirtyBit : Int
  fixCount : Int
  hitNum : Int
  refNum : Int
deriving DecidableEq

/-- The value every frame gets in `initBufferPool` (lines 54-63). -/
def emptyFrame : PageFrame :=
  { pageNum := -1, data := none, dirtyBit := 0, fixCount := 0, hitNum := 0, refNum := 0 }

/-- One storage manager call made by the buffer manager. -/
inductive IOEvent
  | readBlock (pageNum : Int)
  | writeBlock (pageNum : Int) (d : Option Data)
deriving DecidableEq

/-- Buffer pool together with the globals of `buffer_mgr.c` and the page
store state and I/O trace of the storage manager. -/
structure BMState where
  frames : List PageFrame
  isOpen : Bool
  strategy : ReplacementStrategy
  store : Int → Data
  rearIndex : Int
  writeCount : Int
  hit : Int
  clockPointer : Nat
  lfuPointer : Nat
  events : List IOEvent

/-- `pageFrame[i]` — frame access; out-of-range access (undefined behaviour
in C) yields the all-zero frame. -/
def fr (fs : List PageFrame) (i : Nat) : PageFrame := fs.getD i emptyFrame

/-- Effect of `writeBlock` on the page store contents (a write through a
NULL pointer is undefined behaviour in C; it is modelled as a no-op on the
store but still shows in the trace). -/
def updStore (st : Int → Data) (p : Int) (d : Option Data) : Int → Data :=
  match d with
  | some v => fun m => if m = p then v else st m
  | none => st

/-- Number of `readBlock` calls in a trace. -/
def numReads (evs : List IOEvent) : Nat :=
  evs.countP (fun e => match e with
    | IOEvent.readBlock _ => true
    | IOEvent.writeBlock _ _ => false)

/-- First index `k` in `j, j+1, ...` (at most `fuel` of them) whose frame
satisfies `p`; the shape of the linear search loops in the C file. -/
def scanFirst (fs : List PageFrame) (p : PageFrame → Bool) : Nat → Nat → Option Nat
  | _, 0 => none
  | j, fuel+1 => if p (fr fs j) then some j else scanFirst fs p (j+1) fuel

/-- The strict-minimum scan loops of LRU / LRU-K (lines 260-266, 332-337):
starting from accumulator `acc = (index, key)`, walk `fuel` indices from `i`
upward, replacing `acc` whenever a strictly smaller key is seen. -/
def scanMinFrom (fs : List PageFrame) (key : PageFrame → Int) :
    Nat × Int → Nat → Nat → Nat × Int
  | acc, _, 0 => acc
  | acc, i, fuel+1 =>
      scanMinFrom fs key
        (if key (fr fs i) < acc.2 then (i, key (fr fs i)) else acc) (i+1) fuel

/-- The circular strict-minimum scan of LFU (lines 186-192): like
`scanMinFrom` but the index advances modulo `fs.length`. -/
def scanMinCirc (fs : List PageFrame) (key : PageFrame → Int) :
    Nat × Int → Nat → Nat → Nat × Int
  | acc, _, 0 => acc
  | acc, i, fuel+1 =>
      scanMinCirc fs key
        (if key (fr fs i) < acc.2 then (i, key (fr fs i)) else acc)
        ((i+1) % fs.length) fuel

/-- The FIFO victim search (lines 89-94): advance circularly from `idx`
while `fixCount > 0`.  In C this loop never terminates when every frame is
pinned; after `fs.length` pinned probes the search is periodic, so `none`
models that divergence. -/
def fifoSearch (fs : List PageFrame) : Nat → Nat → Option Nat
  | _, 0 => none
  | idx, fuel+1 =>
      if (fr fs idx).fixCount > 0 then fifoSearch fs ((idx+1) % fs.length) fuel
      else some idx

/-- Result of the resident-page scan inside `pinPage` (lines 621-687). -/
inductive ScanResult
  | bootstrap (j : Nat)
  | hitAt (j : Nat)
  | full
deriving DecidableEq

/-- The `pinPage` scan body: at each index first test for an empty frame
(line 624), then for a resident copy of `p` (line 654). -/
def pinScanAux (fs : List PageFrame) (p : Int) : Nat → Nat → ScanResult
  | _, 0 => ScanResult.full
  | j, fuel+1 =>
      if (fr fs j).pageNum = -1 then ScanResult.bootstrap j
      else if (fr fs j).pageNum = p then ScanResult.hitAt j
      else pinScanAux fs p (j+1) fuel

/-- The full `pinPage` scan over indices `0 .. bufferSize-1`. -/
def pinScan (fs : List PageFrame) (p : Int) : ScanResult :=
  pinScanAux fs p 0 fs.length

/-- `persistPage` (lines 130-138): write a frame's buffer to the page
store and increment the global write counter. -/
def persistPage (s : BMState) (f : PageFrame) : BMState :=
  { s with events := s.events ++ [IOEvent.writeBlock f.pageNum f.data],
           store := updStore s.store f.pageNum f.data,
           writeCount := s.writeCount + 1 }

/-- `FIFO` (lines 85-103).  The search starts at `rearIndex % bufferSize`;
the victim is persisted when dirty and then fully overwritten by `page`.
`none` models the non-terminating search when every frame is pinned. -/
def FIFO (s : BMState) (page : PageFrame) : Option BMState :=
  match fifoSearch s.frames ((s.rearIndex % (s.frames.length : Int)).toNat)
      s.frames.length with
  | none => none
  | some k =>
      let victim := fr s.frames k
      let s1 := if victim.dirtyBit = 1 then persistPage s victim else s
      some { s1 with frames := s1.frames.set k page }

/-- `LFU` (lines 154-209).  The first loop (lines 175-182) tests the same
index `lfuPointer` on every iteration, so it either reduces the start index
modulo `bufferSize` at once (when that frame is unpinned) or changes
nothing; then a circular strict-minimum scan of `refNum` runs over the
whole pool ignoring `fixCount`.  The chosen frame is written to the page
store when its dirty bit is 0 (lines 193-200), and only `fixCount`, `data`,
`dirtyBit` and `pageNum` of the victim are overwritten. -/
def LFU (s : BMState) (page : PageFrame) : BMState :=
  let fs := s.frames
  let n := fs.length
  let v0 := if (fr fs s.lfuPointer).fixCount = 0 then s.lfuPointer % n else s.lfuPointer
  let ref0 := if (fr fs s.lfuPointer).fixCount = 0 then (fr fs (s.lfuPointer % n)).refNum
              else (fr fs 0).refNum
  let v := (scanMinCirc fs (fun f => f.refNum) (v0, ref0) ((v0 + 1) % n) n).1
  let victim := fr fs v
  let inst : PageFrame :=
    { victim with fixCount := page.fixCount, data := page.data,
                  dirtyBit := page.dirtyBit, pageNum := page.pageNum }
  if victim.dirtyBit = 0 then
    { s with events := s.events ++ [IOEvent.writeBlock victim.pageNum victim.data],
             store := updStore s.store victim.pageNum victim.data,
             writeCount := s.writeCount + 1,
             lfuPointer := v + 1, frames := fs.set v inst }
  else
    { s with lfuPointer := v + 1, frames := fs.set v inst }

/-- `LRU` (lines 223-282).  The first scan (lines 246-253) stores its
result into locals that lines 255-258 overwrite before any use, so the
victim is simply the first strict minimum of `hitNum` over all frames,
ignoring `fixCount`.  The victim is overwritten by `page` (keeping its
`refNum`), and only afterwards is the — now new — dirty bit tested for the
flush (lines 275-281). -/
def LRU (s : BMState) (page : PageFrame) : BMState :=
  let fs := s.frames
  let v := (scanMinFrom fs (fun f => f.hitNum) (0, (fr fs 0).hitNum) 1 (fs.length - 1)).1
  let newF : PageFrame :=
    { fr fs v with dirtyBit := page.dirtyBit, hitNum := page.hitNum,
                   data := page.data, pageNum := page.pageNum,
                   fixCount := page.fixCount }
  let s1 := { s with frames := fs.set v newF }
  if newF.dirtyBit = 1 then
    { s1 with events := s1.events ++ [IOEvent.writeBlock newF.pageNum newF.data],
              store := updStore s1.store newF.pageNum newF.data,
              writeCount := s1.writeCount + 1 }
  else s1

/-- `LRU_K` (lines 296-351).  The first scan finds the first unpinned
frame (or leaves `(0, 0)` when every frame is pinned); the second scan
takes strict minima of `hitNum` from there on, ignoring `fixCount`.  The
victim is overwritten by `page` (keeping its `refNum`) and the — now new —
dirty bit decides the flush (lines 345-350). -/
def LRU_K (s : BMState) (page : PageFrame) : BMState :=
  let fs := s.frames
  let n := fs.length
  let first := scanFirst fs (fun f => decide (f.fixCount = 0)) 0 n
  let lh0 := match first with | some i => i | none => 0
  let ln0 := match first with | some i => (fr fs i).hitNum | none => 0
  let v := (scanMinFrom fs (fun f => f.hitNum) (lh0, ln0) (lh0 + 1) (n - (lh0 + 1))).1
  let newF : PageFrame :=
    { fr fs v with hitNum := page.hitNum, data := page.data,
                   pageNum := page.pageNum, fixCount := page.fixCount,
                   dirtyBit := page.dirtyBit }
  let s1 := { s with frames := fs.set v newF }
  if newF.dirtyBit ≠ 0 then
    { s1 with events := s1.events ++ [IOEvent.writeBlock newF.pageNum newF.data],
              store := updStore s1.store newF.pageNum newF.data,
              writeCount := s1.writeCount + 1 }
  else s1

/-- The `CLOCK` loop (lines 369-385): while `clockPointer % bufferSize ≠ 0`,
install at the first frame with `hitNum = 0` (returning the replaced
victim), clearing `hitNum` of skipped frames.  The loop tests `hitNum`
only — `fixCount` is never consulted.  The fuel covers the distance to the
next multiple of `bufferSize`, after which the C loop exits by itself. -/
def clockLoop (page : PageFrame) :
    List PageFrame → Nat → Nat → List PageFrame × Nat × Option PageFrame
  | fs, cp, 0 => (fs, cp, none)
  | fs, cp, fuel+1 =>
      if cp % fs.length ≠ 0 then
        if (fr fs cp).hitNum = 0 then (fs.set cp page, cp, some (fr fs cp))
        else clockLoop page (fs.set cp { fr fs cp with hitNum := 0 }) (cp+1) fuel
      else (fs, cp, none)

/-- `CLOCK` (lines 366-388).  A dirty victim is written to the page store
(without incrementing `writeCount` — line 376 has no `writeCount++`), and
the cursor becomes `(stop position + 1) % bufferSize`.  When the cursor
already sits on a multiple of `bufferSize` the loop body never runs and no
frame is replaced at all. -/
def CLOCK (s : BMState) (page : PageFrame) : BMState :=
  let r := clockLoop page s.frames s.clockPointer (s.frames.length + 1)
  match r.2.2 with
  | some victim =>
      if victim.dirtyBit ≠ 0 then
        { s with events := s.events ++ [IOEvent.writeBlock victim.pageNum victim.data],
                 store := updStore s.store victim.pageNum victim.data,
                 frames := r.1, clockPointer := (r.2.1 + 1) % s.frames.length }
      else { s with frames := r.1, clockPointer := (r.2.1 + 1) % s.frames.length }
  | none => { s with frames := r.1, clockPointer := (r.2.1 + 1) % s.frames.length }

/-- `initBufferPool` (lines 39-70): allocate `numPages` default frames and
reset `lfuPointer`, `writeCount`, `clockPointer` — but not the globals
`rearIndex` and `hit`, which are whatever the process left there. -/
def initBufferPool (strategy : ReplacementStrategy) (numPages : Nat)
    (store : Int → Data) (rearIndex : Int) (hit : Int) (events : List IOEvent) :
    BMState :=
  { frames := List.replicate numPages emptyFrame,
    isOpen := true, strategy := strategy, store := store,
    rearIndex := rearIndex, hit := hit,
    writeCount := 0, clockPointer := 0, lfuPointer := 0,
    events := events }

/-- A pool created in a fresh process: the globals `rearIndex` and `hit`
start at 0 and nothing has touched the page store yet. -/
def freshInit (strategy : ReplacementStrategy) (numPages : Nat)
    (store : Int → Data) : BMState :=
  initBufferPool strategy numPages store 0 0 []

/-- A new page installed into an empty frame by the `pinPage` scan
(lines 626-649): fresh buffer read from the store, `refNum = 0`,
`fixCount = 1`, the dirty bit of the (empty) slot untouched. -/
def installFrame (f : PageFrame) (p : Int) (d : Data) (hn : Int) : PageFrame :=
  { f with data := some d, hitNum := hn, refNum := 0, pageNum := p, fixCount := 1 }

/-- Frame 0 filled by the very first pin (lines 739-758): like the empty
frame path but with `fixCount` incremented rather than set. -/
def firstFrame (f : PageFrame) (p : Int) (d : Data) : PageFrame :=
  { f with data := some d, pageNum := p, fixCount := f.fixCount + 1,
           hitNum := 0, refNum := 0 }

/-- The per-strategy bookkeeping of a pin hit (lines 656-677). -/
def touchFrame (st : ReplacementStrategy) (f : PageFrame) (hit1 : Int) : PageFrame :=
  match st with
  | RS_CLOCK => { f with fixCount := f.fixCount + 1, hitNum := 1 }
  | RS_LFU => { f with fixCount := f.fixCount + 1, refNum := f.refNum + 1 }
  | RS_LRU => { f with fixCount := f.fixCount + 1, hitNum := hit1 }
  | RS_LRU_K => { f with fixCount := f.fixCount + 1, hitNum := hit1 }
  | RS_FIFO => { f with fixCount := f.fixCount + 1 }

/-- `pinPage` (lines 602-763).  Faithful to the C control flow:
a closed pool answers `RC_PAGE_NOT_PINNED` (line 605); negative page
numbers are rejected; if frame 0 is empty the first page is bootstrapped
into frame 0 with `rearIndex := 0` and `hit := 0` (lines 737-762);
otherwise the scan either fills the first empty frame (lines 624-651),
bumps an already resident frame (lines 652-685), or — buffer full — reads
the page into a fresh holder and dispatches to the strategy (lines
690-735).  For FIFO and LFU the C code leaves the holder's `hitNum`
uninitialized; neither policy reads it and it is modelled as 0.  `none`
models the diverging FIFO search. -/
def pinPage (s : BMState) (pageNum : Int) : Option (RC × BMState) :=
  if s.isOpen = false then some (RC_PAGE_NOT_PINNED, s)
  else if pageNum < 0 then some (RC_NEGATIVE_PAGE_NUM, s)
  else if (fr s.frames 0).pageNum ≠ -1 then
    match pinScan s.frames pageNum with
    | ScanResult.bootstrap j =>
        let f := fr s.frames j
        let hit1 := s.hit + 1
        let hitNum1 := if s.strategy = RS_CLOCK then 1
                       else if s.strategy = RS_LRU then hit1 else f.hitNum
        some (RC_OK,
          { s with events := s.events ++ [IOEvent.readBlock pageNum],
                   rearIndex := s.rearIndex + 1, hit := hit1,
                   frames := s.frames.set j
                     (installFrame f pageNum (s.store pageNum) hitNum1) })
    | ScanResult.hitAt j =>
        let f := fr s.frames j
        let hit1 := s.hit + 1
        some (RC_OK,
          { s with hit := hit1, clockPointer := s.clockPointer + 1,
                   frames := s.frames.set j (touchFrame s.strategy f hit1) })
    | ScanResult.full =>
        let hit1 := s.hit + 1
        let newPage : PageFrame :=
          { data := some (s.store pageNum), refNum := 0, fixCount := 1,
            pageNum := pageNum, dirtyBit := 0,
            hitNum := if s.strategy = RS_LRU_K ∨ s.strategy = RS_LRU then hit1
                      else if s.strategy = RS_CLOCK then 1 else 0 }
        let s1 := { s with hit := hit1, rearIndex := s.rearIndex + 1,
                           events := s.events ++ [IOEvent.readBlock pageNum] }
        match s.strategy with
        | RS_FIFO => (FIFO s1 newPage).map (fun s2 => (RC_OK, s2))
        | RS_LRU => some (RC_OK, LRU s1 newPage)
        | RS_CLOCK => some (RC_OK, CLOCK s1 newPage)
        | RS_LFU => some (RC_OK, LFU s1 newPage)
        | RS_LRU_K => some (RC_OK, LRU_K s1 newPage)
  else
    let f := fr s.frames 0
    some (RC_OK,
      { s with events := s.events ++ [IOEvent.readBlock pageNum],
               rearIndex := 0, hit := 0,
               frames := s.frames.set 0 (firstFrame f pageNum (s.store pageNum)) })

/-- The first-match loop over slots `0 .. bufferSize-1` shared by
`markDirty`, `unpinPage` and `forcePage`. -/
def findFrame (fs : List PageFrame) (p : PageFrame → Bool) : Option Nat :=
  scanFirst fs p 0 fs.length

/-- The frame update performed by `markDirty` (line 506). -/
def dirtyFrame (f : PageFrame) : PageFrame := { f with dirtyBit := 1 }

/-- The frame update performed by a successful `unpinPage` (line 540). -/
def unpinFrame (f : PageFrame) : PageFrame := { f with fixCount := f.fixCount - 1 }

/-- `markDirty` (lines 495-512).  Note: no open-pool check and no
restriction on the page number argument. -/
def markDirty (s : BMState) (pageNum : Int) : RC × BMState :=
  match findFrame s.frames (fun f => decide (f.pageNum = pageNum)) with
  | some i => (RC_OK, { s with frames := s.frames.set i (dirtyFrame (fr s.frames i)) })
  | none => (RC_ERROR, s)

/-- `unpinPage` (lines 522-553). -/
def unpinPage (s : BMState) (pageNum : Int) : RC × BMState :=
  if s.isOpen = false then (RC_POOL_NOT_OPEN, s)
  else
    match findFrame s.frames (fun f => decide (f.pageNum = pageNum)) with
    | none => (RC_PAGE_NOT_IN_FRAMELIST, s)
    | some j =>
        let f := fr s.frames j
        if f.fixCount > 0 then
          (RC_OK, { s with frames := s.frames.set j (unpinFrame f) })
        else (RC_PAGE_NOT_PINNED, s)

/-- `forcePage` (lines 562-583): write the matching frame's buffer, clear
its dirty bit, bump the write counter. -/
def forcePage (s : BMState) (pageNum : Int) : RC × BMState :=
  match findFrame s.frames (fun f => decide (f.pageNum = pageNum)) with
  | none => (RC_PAGE_NOT_IN_FRAMELIST, s)
  | some i =>
      let f := fr s.frames i
      (RC_OK, { s with events := s.events ++ [IOEvent.writeBlock f.pageNum f.data],
                       store := updStore s.store f.pageNum f.data,
                       writeCount := s.writeCount + 1,
                       frames := s.frames.set i { f with dirtyBit := 0 } })

/-- The collection pass of `forceFlushPool` (lines 458-466): slots that are
unpinned and dirty, in slot order. -/
def dirtyIdxs (fs : List PageFrame) : List Nat :=
  (List.range fs.length).filter
    (fun i => decide ((fr fs i).fixCount = 0 ∧ (fr fs i).dirtyBit = 1))

/-- Clear the dirty bit of the listed slots (line 462). -/
def clearDirty (fs : List PageFrame) (idxs : List Nat) : List PageFrame :=
  idxs.foldl (fun acc i => acc.set i { fr acc i with dirtyBit := 0 }) fs

/-- The write pass of `forceFlushPool` (lines 471-473): the i-th collected
page number is written — with the buffer of slot `i` of the frame array,
not the buffer of the frame the page number was collected from. -/
def flushWrites (fs1 : List PageFrame) (pages : List Int) : List IOEvent :=
  (List.range pages.length).map
    (fun i => IOEvent.writeBlock (pages.getD i 0) (fr fs1 i).data)

/-- Replay a write list onto the page store. -/
def applyWrites (st : Int → Data) (evs : List IOEvent) : Int → Data :=
  evs.foldl (fun acc e => match e with
    | IOEvent.writeBlock p d => updStore acc p d
    | IOEvent.readBlock _ => acc) st

/-- `forceFlushPool` (lines 449-478). -/
def forceFlushPool (s : BMState) : RC × BMState :=
  if s.isOpen = false then (RC_ERROR, s)
  else
    let idxs := dirtyIdxs s.frames
    let pages := idxs.map (fun i => (fr s.frames i).pageNum)
    let fs1 := clearDirty s.frames idxs
    let ws := flushWrites fs1 pages
    (RC_OK, { s with frames := fs1, writeCount := s.writeCount + idxs.length,
                     events := s.events ++ ws, store := applyWrites s.store ws })

/-- `shutdownBufferPool` (lines 407-430): error on a closed pool, error
when any frame is pinned (pool untouched), otherwise flush, free the frame
array and close the pool. -/
def shutdownBufferPool (s : BMState) : RC × BMState :=
  if s.isOpen = false then (RC_BUFFER_POOL_SHUTDOWN_ERROR, s)
  else if s.frames.any (fun f => decide (f.fixCount ≠ 0)) then
    (RC_PINNED_PAGES_IN_BUFFER, s)
  else
    let s1 := (forceFlushPool s).2
    (RC_OK, { s1 with frames := [], isOpen := false })

/--  getNumReadIO  (lines 845-849): the current `rearIndex` plus one. -/
def getNumReadIO (s : BMState) : Int := s.rearIndex + 1

/-- The function getNumWriteIO (lines 859-863). -/
def getNumWriteIO (s : BMState) : Int := s.writeCount

/-- One client call against the pool. -/
inductive Op
  | pin (n : Int)
  | unpin (n : Int)
  | mark (n : Int)
  | force (n : Int)
  | flush
  | shutdown
deriving DecidableEq

/-- Apply one call; `none` when the call diverges (all-pinned FIFO search). -/
def applyOp (s : BMState) : Op → Option BMState
  | Op.pin n => (pinPage s n).map (fun r => r.2)
  | Op.unpin n => some (unpinPage s n).2
  | Op.mark n => some (markDirty s n).2
  | Op.force n => some (forcePage s n).2
  | Op.flush => some (forceFlushPool s).2
  | Op.shutdown => some (shutdownBufferPool s).2

/-- Run a call sequence. -/
def runOps : BMState → List Op → Option BMState
  | s, [] => some s
  | s, op :: ops =>
      match applyOp s op with
      | some s1 => runOps s1 ops
      | none => none

/-- Occupied frames form a prefix of the slot array. -/
def PrefixOcc (fs : List PageFrame) : Prop :=
  ∀ i j : Nat, i ≤ j → j < fs.length → (fr fs j).pageNum ≠ -1 →
    (fr fs i).pageNum ≠ -1

/-- No two occupied frames hold the same page number. -/
def DistinctOcc (fs : List PageFrame) : Prop :=
  ∀ i j : Nat, i < fs.length → j < fs.length → i ≠ j →
    (fr fs i).pageNum ≠ -1 → (fr fs i).pageNum ≠ (fr fs j).pageNum

/-- Accounting between `rearIndex` and the `readBlock` trace: before the
first page is pinned `rearIndex` is 0 with no reads; afterwards
`rearIndex + 1` equals the number of reads performed. -/
def ReadAcct (s : BMState) : Prop :=
  (s.isOpen = true →
     ((fr s.frames 0).pageNum = -1 → s.rearIndex = 0 ∧ numReads s.events = 0)
   ∧ ((fr s.frames 0).pageNum ≠ -1 → s.rearIndex + 1 = (numReads s.events : Int)))
  ∧ (s.isOpen = false →
     s.rearIndex + 1 = (numReads s.events : Int)
     ∨ (s.rearIndex = 0 ∧ numReads s.events = 0))

/-- The reachable-state invariant of the pool. -/
def PoolInv (s : BMState) : Prop :=
  (s.isOpen = true → s.frames ≠ []) ∧ PrefixOcc s.frames ∧ DistinctOcc s.frames
  ∧ ReadAcct s

/-- A replacement policy call rewrites the page number of at most one slot
(to the incoming page's number), leaving every other slot's page number
unchanged. -/
def FramesUpd (fs fs1 : List PageFrame) (p : Int) : Prop :=
  fs1.length = fs.length ∧
  ∃ v, (∀ i : Nat, i ≠ v → (fr fs1 i).pageNum = (fr fs i).pageNum) ∧
       ((fr fs1 v).pageNum = p ∨ (fr fs1 v).pageNum = (fr fs v).pageNum)

/-- What the eviction-case invariant proof needs from a policy call. -/
def PolicyOk (s s1 : BMState) (p : Int) : Prop :=
  FramesUpd s.frames s1.frames p ∧ s1.isOpen = s.isOpen
  ∧ s1.rearIndex = s.rearIndex ∧ numReads s1.events = numReads s.events

/-- Frame access into the empty list. -/
theorem fr_nil (i : Nat) : fr [] i = emptyFrame := by
  simp [fr, List.getD]

/-- Frame access after an in-range `set` at the same slot. -/
theorem fr_set_eq (fs : List PageFrame) (j : Nat) (f : PageFrame) (h : j < fs.length) :
    fr (fs.set j f) j = f := by
  simp [fr, List.getD, List.getElem?_set_self, h]

/-- Frame access after a `set` at a different slot. -/
theorem fr_set_ne (fs : List PageFrame) (i j : Nat) (f : PageFrame) (h : i ≠ j) :
    fr (fs.set j f) i = fr fs i := by
  simp [fr, List.getD, List.getElem?_set_ne (Ne.symm h)]

/-- An out-of-range `set` changes nothing. -/
theorem set_oob (fs : List PageFrame) (j : Nat) (f : PageFrame) (h : fs.length ≤ j) :
    fs.set j f = fs := List.set_eq_of_length_le h

/-- Every slot of the freshly initialized pool is the default frame. -/
theorem fr_replicate (n i : Nat) : fr (List.replicate n emptyFrame) i = emptyFrame := by
  by_cases h : i < n
  · simp [fr, List.getD, List.getElem?_replicate, h]
  · simp [fr, List.getD, List.getElem?_replicate, h]

theorem numReads_nil : numReads [] = 0 := rfl

theorem numReads_append (a b : List IOEvent) :
    numReads (a ++ b) = numReads a + numReads b := List.countP_append _ a b

theorem numReads_read (p : Int) : numReads [IOEvent.readBlock p] = 1 := rfl

theorem numReads_write (p : Int) (d : Option Data) :
    numReads [IOEvent.writeBlock p d] = 0 := rfl

/-- The flush write pass performs no reads. -/
theorem numReads_flushWrites (fs : List PageFrame) (pages : List Int) :
    numReads (flushWrites fs pages) = 0 := by
  rw [numReads, List.countP_eq_zero]
  intro e he
  simp only [flushWrites, List.mem_map] at he
  obtain ⟨i, _, rfl⟩ := he
  simp

/-- Replacing a slot with a frame carrying the same page number changes no
slot's page number. -/
theorem pageNums_set_same (fs : List PageFrame) (j : Nat) (f : PageFrame)
    (h : f.pageNum = (fr fs j).pageNum) :
    ∀ i, (fr (fs.set j f) i).pageNum = (fr fs i).pageNum := by
  intro i
  by_cases hij : i = j
  · subst hij
    by_cases hlen : i < fs.length
    · rw [fr_set_eq _ _ _ hlen, h]
    · rw [set_oob _ _ _ (le_of_not_lt hlen)]
  · rw [fr_set_ne _ _ _ _ hij]

/-- `PrefixOcc` only depends on the page numbers of the slots. -/
theorem prefixOcc_of_same (fs fs1 : List PageFrame) (hlen : fs1.length = fs.length)
    (hsame : ∀ i, (fr fs1 i).pageNum = (fr fs i).pageNum) (h : PrefixOcc fs) :
    PrefixOcc fs1 := by
  intro i j hij hj hocc
  rw [hsame i]
  rw [hsame j] at hocc
  exact h i j hij (hlen ▸ hj) hocc

/-- `DistinctOcc` only depends on the page numbers of the slots. -/
theorem distinctOcc_of_same (fs fs1 : List PageFrame) (hlen : fs1.length = fs.length)
    (hsame : ∀ i, (fr fs1 i).pageNum = (fr fs i).pageNum) (h : DistinctOcc fs) :
    DistinctOcc fs1 := by
  intro i j hi hj hij hocc
  rw [hsame i] at hocc ⊢
  rw [hsame j]
  exact h i j (hlen ▸ hi) (hlen ▸ hj) hij hocc

/-- `ReadAcct` transfers along operations that keep the open flag,
`rearIndex`, the read count and slot 0's page number. -/
theorem readAcct_of_same (s s1 : BMState) (hopen : s1.isOpen = s.isOpen)
    (hrear : s1.rearIndex = s.rearIndex)
    (hreads : numReads s1.events = numReads s.events)
    (hfr0 : (fr s1.frames 0).pageNum = (fr s.frames 0).pageNum)
    (h : ReadAcct s) : ReadAcct s1 := by
  unfold ReadAcct at h ⊢
  rw [hopen, hrear, hreads, hfr0]
  exact h

/-- `PoolInv` transfers along operations that keep the length and page
numbers of the slots, the open flag, `rearIndex` and the read count. -/
theorem poolInv_of_same (s s1 : BMState) (hlen : s1.frames.length = s.frames.length)
    (hsame : ∀ i, (fr s1.frames i).pageNum = (fr s.frames i).pageNum)
    (hopen : s1.isOpen = s.isOpen) (hrear : s1.rearIndex = s.rearIndex)
    (hreads : numReads s1.events = numReads s.events)
    (h : PoolInv s) : PoolInv s1 := by
  obtain ⟨h0, h1, h2, h3⟩ := h
  refine ⟨?_, prefixOcc_of_same _ _ hlen hsame h1,
    distinctOcc_of_same _ _ hlen hsame h2,
    readAcct_of_same _ _ hopen hrear hreads (hsame 0) h3⟩
  intro ho
  have hne := h0 (hopen ▸ ho)
  intro hnil
  rw [hnil] at hlen
  exact hne (List.eq_nil_of_length_eq_zero hlen.symm)

/-- The first-match scan returns `t` when `t` is inside the scanned window,
matches, and nothing before it matches. -/
theorem scanFirst_eq_some (fs : List PageFrame) (p : PageFrame → Bool) :
    ∀ (fuel j t : Nat), j ≤ t → t < j + fuel → p (fr fs t) = true →
      (∀ k, j ≤ k → k < t → p (fr fs k) = false) →
      scanFirst fs p j fuel = some t := by
  intro fuel
  induction fuel with
  | zero => intro j t h1 h2 _ _; omega
  | succ fuel ih =>
      intro j t h1 h2 hp hfirst
      by_cases hj : p (fr fs j) = true
      · have hjt : j = t := by
          by_contra hne
          have := hfirst j (le_refl j) (lt_of_le_of_ne h1 hne)
          rw [hj] at this
          cases this
        subst hjt
        simp [scanFirst, hj]
      · have hjf : p (fr fs j) = false := by
          cases hpj : p (fr fs j)
          · rfl
          · exact absurd hpj hj
        have hne : j ≠ t := by
          intro he
          rw [he, hp] at hjf
          cases hjf
        simp only [scanFirst, hjf, Bool.false_eq_true, if_false]
        exact ih (j+1) t (by omega) (by omega) hp
          (fun k hk1 hk2 => hfirst k (by omega) hk2)

/-- The first-match scan fails when nothing in the window matches. -/
theorem scanFirst_eq_none (fs : List PageFrame) (p : PageFrame → Bool) :
    ∀ (fuel j : Nat), (∀ k, j ≤ k → k < j + fuel → p (fr fs k) = false) →
      scanFirst fs p j fuel = none := by
  intro fuel
  induction fuel with
  | zero => intro j _; rfl
  | succ fuel ih =>
      intro j hall
      have hjf : p (fr fs j) = false := hall j (le_refl j) (by omega)
      simp only [scanFirst, hjf, Bool.false_eq_true, if_false]
      exact ih (j+1) (fun k hk1 hk2 => hall k (by omega) (by omega))

/-- When the `pinPage` scan falls through, every scanned slot is occupied
by a page other than the requested one. -/
theorem pinScanAux_full (fs : List PageFrame) (p : Int) :
    ∀ (fuel j : Nat), pinScanAux fs p j fuel = ScanResult.full →
      ∀ k, j ≤ k → k < j + fuel → (fr fs k).pageNum ≠ -1 ∧ (fr fs k).pageNum ≠ p := by
  intro fuel
  induction fuel with
  | zero => intro j _ k h1 h2; omega
  | succ fuel ih =>
      intro j h k hk1 hk2
      by_cases h1 : (fr fs j).pageNum = -1
      · rw [pinScanAux, if_pos h1] at h
        cases h
      · by_cases h2 : (fr fs j).pageNum = p
        · rw [pinScanAux, if_neg h1, if_pos h2] at h
          cases h
        · rw [pinScanAux, if_neg h1, if_neg h2] at h
          rcases Nat.eq_or_lt_of_le hk1 with rfl | hlt
          · exact ⟨h1, h2⟩
          · exact ih (j+1) h k hlt (by omega)

/-- When the `pinPage` scan stops at an empty slot `b`, `b` is in range,
empty, and every earlier scanned slot is occupied by some other page. -/
theorem pinScanAux_bootstrap (fs : List PageFrame) (p : Int) :
    ∀ (fuel j b : Nat), pinScanAux fs p j fuel = ScanResult.bootstrap b →
      j ≤ b ∧ b < j + fuel ∧ (fr fs b).pageNum = -1 ∧
      ∀ k, j ≤ k → k < b → (fr fs k).pageNum ≠ -1 ∧ (fr fs k).pageNum ≠ p := by
  intro fuel
  induction fuel with
  | zero => intro j b h; cases h
  | succ fuel ih =>
      intro j b h
      by_cases h1 : (fr fs j).pageNum = -1
      · rw [pinScanAux, if_pos h1] at h
        cases h
        exact ⟨le_refl j, by omega, h1, fun k hk1 hk2 => by omega⟩
      · by_cases h2 : (fr fs j).pageNum = p
        · rw [pinScanAux, if_neg h1, if_pos h2] at h
          cases h
        · rw [pinScanAux, if_neg h1, if_neg h2] at h
          obtain ⟨hb1, hb2, hb3, hb4⟩ := ih (j+1) b h
          refine ⟨by omega, by omega, hb3, fun k hk1 hk2 => ?_⟩
          rcases Nat.eq_or_lt_of_le hk1 with rfl | hlt
          · exact ⟨h1, h2⟩
          · exact hb4 k hlt hk2

/-- Setting one slot to a frame carrying page number `p` is a `FramesUpd`. -/
theorem framesUpd_set (fs : List PageFrame) (v : Nat) (f : PageFrame) (p : Int)
    (h : f.pageNum = p) : FramesUpd fs (fs.set v f) p := by
  refine ⟨List.length_set fs v f, v, fun i hi => by rw [fr_set_ne _ _ _ _ hi], ?_⟩
  by_cases hv : v < fs.length
  · rw [fr_set_eq _ _ _ hv, h]
    exact Or.inl rfl
  · rw [set_oob _ _ _ (le_of_not_lt hv)]
    exact Or.inr rfl

/-- Leaving the slot array alone is a (trivial) `FramesUpd`. -/
theorem framesUpd_refl (fs : List PageFrame) (p : Int) : FramesUpd fs fs p :=
  ⟨rfl, 0, fun _ _ => rfl, Or.inr rfl⟩

/-- `FramesUpd` absorbs a page-number-preserving step on its left. -/
theorem framesUpd_of_same_left (fs fs1 fs2 : List PageFrame) (p : Int)
    (hlen : fs1.length = fs.length)
    (hsame : ∀ i, (fr fs1 i).pageNum = (fr fs i).pageNum)
    (h : FramesUpd fs1 fs2 p) : FramesUpd fs fs2 p := by
  obtain ⟨hl, v, hv1, hv2⟩ := h
  refine ⟨hl.trans hlen, v, fun i hi => (hv1 i hi).trans (hsame i), ?_⟩
  cases hv2 with
  | inl h2 => exact Or.inl h2
  | inr h2 => exact Or.inr (h2.trans (hsame v))

/-- `FIFO` satisfies the policy contract used by the invariant proof. -/
theorem fifo_ok (s : BMState) (page : PageFrame) (s1 : BMState)
    (h : FIFO s page = some s1) : PolicyOk s s1 page.pageNum := by
  unfold FIFO at h
  cases hfind : fifoSearch s.frames ((s.rearIndex % (s.frames.length : Int)).toNat)
      s.frames.length with
  | none => rw [hfind] at h; cases h
  | some k =>
      rw [hfind] at h
      dsimp only at h
      by_cases hd : (fr s.frames k).dirtyBit = 1
      · rw [if_pos hd] at h
        injection h with h
        subst h
        refine ⟨framesUpd_set _ _ _ _ rfl, rfl, rfl, ?_⟩
        simp [persistPage, numReads_append, numReads_write]
      · rw [if_neg hd] at h
        injection h with h
        subst h
        exact ⟨framesUpd_set _ _ _ _ rfl, rfl, rfl, rfl⟩

/-- `LRU` satisfies the policy contract used by the invariant proof. -/
theorem lru_ok (s : BMState) (page : PageFrame) :
    PolicyOk s (LRU s page) page.pageNum := by
  unfold LRU
  dsimp only
  split
  · refine ⟨framesUpd_set _ _ _ _ rfl, rfl, rfl, ?_⟩
    simp [numReads_append, numReads_write]
  · exact ⟨framesUpd_set _ _ _ _ rfl, rfl, rfl, rfl⟩

/-- `LRU_K` satisfies the policy contract used by the invariant proof. -/
theorem lruk_ok (s : BMState) (page : PageFrame) :
    PolicyOk s (LRU_K s page) page.pageNum := by
  unfold LRU_K
  dsimp only
  split
  · refine ⟨framesUpd_set _ _ _ _ rfl, rfl, rfl, ?_⟩
    simp [numReads_append, numReads_write]
  · exact ⟨framesUpd_set _ _ _ _ rfl, rfl, rfl, rfl⟩

/-- `LFU` satisfies the policy contract used by the invariant proof. -/
theorem lfu_ok (s : BMState) (page : PageFrame) :
    PolicyOk s (LFU s page) page.pageNum := by
  unfold LFU
  dsimp only
  split <;> split
  all_goals
    first
    | exact ⟨framesUpd_set _ _ _ _ rfl, rfl, rfl, rfl⟩
    | · refine ⟨framesUpd_set _ _ _ _ rfl, rfl, rfl, ?_⟩
        simp [numReads_append, numReads_write]

/-- The `CLOCK` loop only rewrites page numbers through the single
installation slot. -/
theorem clockLoop_framesUpd (page : PageFrame) :
    ∀ (fuel : Nat) (fs : List PageFrame) (cp : Nat),
      FramesUpd fs (clockLoop page fs cp fuel).1 page.pageNum := by
  intro fuel
  induction fuel with
  | zero => intro fs cp; exact framesUpd_refl fs page.pageNum
  | succ fuel ih =>
      intro fs cp
      by_cases h0 : cp % fs.length ≠ 0
      · by_cases h1 : (fr fs cp).hitNum = 0
        · rw [clockLoop, if_pos h0, if_pos h1]
          exact framesUpd_set _ _ _ _ rfl
        · rw [clockLoop, if_pos h0, if_neg h1]
          refine framesUpd_of_same_left _ _ _ _ (List.length_set _ _ _) ?_ (ih _ _)
          exact pageNums_set_same fs cp _ rfl
      · rw [clockLoop, if_neg h0]
        exact framesUpd_refl fs page.pageNum

/-- `CLOCK` satisfies the policy contract used by the invariant proof. -/
theorem clock_ok (s : BMState) (page : PageFrame) :
    PolicyOk s (CLOCK s page) page.pageNum := by
  unfold CLOCK
  have hupd := clockLoop_framesUpd page (s.frames.length + 1) s.frames s.clockPointer
  dsimp only
  split
  · next victim hvict =>
      split
      · refine ⟨hupd, rfl, rfl, ?_⟩
        simp [numReads_append, numReads_write]
      · exact ⟨hupd, rfl, rfl, rfl⟩
  · exact ⟨hupd, rfl, rfl, rfl⟩

theorem clearDirty_length (idxs : List Nat) :
    ∀ fs : List PageFrame, (clearDirty fs idxs).length = fs.length := by
  induction idxs with
  | nil => intro fs; rfl
  | cons i rest ih =>
      intro fs
      show (clearDirty (fs.set i _) rest).length = fs.length
      rw [ih, List.length_set]

theorem clearDirty_pageNums (idxs : List Nat) :
    ∀ (fs : List PageFrame) (k : Nat),
      (fr (clearDirty fs idxs) k).pageNum = (fr fs k).pageNum := by
  induction idxs with
  | nil => intro fs k; rfl
  | cons i rest ih =>
      intro fs k
      show (fr (clearDirty (fs.set i _) rest) k).pageNum = (fr fs k).pageNum
      rw [ih]
      exact pageNums_set_same fs i { fr fs i with dirtyBit := 0 } rfl k

/-- `markDirty` preserves the pool invariant. -/
theorem markDirty_inv (s : BMState) (n : Int) (h : PoolInv s) :
    PoolInv (markDirty s n).2 := by
  unfold markDirty
  cases hfind : findFrame s.frames (fun f => decide (f.pageNum = n)) with
  | none => exact h
  | some i =>
      dsimp only
      exact poolInv_of_same s _ (List.length_set _ _ _)
        (pageNums_set_same s.frames i (dirtyFrame (fr s.frames i)) rfl) rfl rfl rfl h

/-- `unpinPage` preserves the pool invariant. -/
theorem unpin_inv (s : BMState) (n : Int) (h : PoolInv s) :
    PoolInv (unpinPage s n).2 := by
  unfold unpinPage
  by_cases ho : s.isOpen = false
  · rw [if_pos ho]; exact h
  · rw [if_neg ho]
    cases hfind : findFrame s.frames (fun f => decide (f.pageNum = n)) with
    | none => exact h
    | some j =>
        dsimp only
        by_cases hfix : (fr s.frames j).fixCount > 0
        · rw [if_pos hfix]
          exact poolInv_of_same s _ (List.length_set _ _ _)
            (pageNums_set_same s.frames j (unpinFrame (fr s.frames j)) rfl) rfl rfl rfl h
        · rw [if_neg hfix]; exact h

/-- `forcePage` preserves the pool invariant. -/
theorem forcePage_inv (s : BMState) (n : Int) (h : PoolInv s) :
    PoolInv (forcePage s n).2 := by
  unfold forcePage
  cases hfind : findFrame s.frames (fun f => decide (f.pageNum = n)) with
  | none => exact h
  | some i =>
      dsimp only
      refine poolInv_of_same s _ (List.length_set _ _ _)
        (pageNums_set_same s.frames i _ rfl) rfl rfl ?_ h
      simp [numReads_append, numReads_write]

/-- `forceFlushPool` preserves the pool invariant. -/
theorem flush_inv (s : BMState) (h : PoolInv s) :
    PoolInv (forceFlushPool s).2 := by
  unfold forceFlushPool
  by_cases ho : s.isOpen = false
  · rw [if_pos ho]; exact h
  · rw [if_neg ho]
    dsimp only
    refine poolInv_of_same s _ (clearDirty_length _ _)
      (clearDirty_pageNums _ s.frames) rfl rfl ?_ h
    simp [numReads_append, numReads_flushWrites]

/-- `shutdownBufferPool` preserves the pool invariant. -/
theorem shutdown_inv (s : BMState) (h : PoolInv s) :
    PoolInv (shutdownBufferPool s).2 := by
  unfold shutdownBufferPool
  by_cases ho : s.isOpen = false
  · rw [if_pos ho]; exact h
  · rw [if_neg ho]
    by_cases hpin : s.frames.any (fun f => decide (f.fixCount ≠ 0))
    · rw [if_pos hpin]; exact h
    · rw [if_neg hpin]
      dsimp only
      have hso : s.isOpen = true := by
        revert ho; cases s.isOpen <;> simp
      obtain ⟨hOL, hPre, hDis, hRA⟩ := h
      refine ⟨?_, ?_, ?_, ?_, ?_⟩
      · intro hx; cases hx
      · intro i j hij hj hocc
        rw [fr_nil] at hocc
        exact absurd rfl hocc
      · intro i j hi hj hij hocc
        rw [fr_nil] at hocc
        exact absurd rfl hocc
      · intro hx; cases hx
      · intro _
        have hrear : (forceFlushPool s).2.rearIndex = s.rearIndex := by
          unfold forceFlushPool
          rw [if_neg ho]
        have hreads : numReads (forceFlushPool s).2.events = numReads s.events := by
          unfold forceFlushPool
          rw [if_neg ho]
          dsimp only
          simp [numReads_append, numReads_flushWrites]
        rw [hrear, hreads]
        by_cases h0 : (fr s.frames 0).pageNum = -1
        · exact Or.inr ((hRA.1 hso).1 h0)
        · exact Or.inl ((hRA.1 hso).2 h0)

theorem lru_reads (s : BMState) (page : PageFrame) :
    numReads (LRU s page).events = numReads s.events := (lru_ok s page).2.2.2

theorem lruk_reads (s : BMState) (page : PageFrame) :
    numReads (LRU_K s page).events = numReads s.events := (lruk_ok s page).2.2.2

theorem lfu_reads (s : BMState) (page : PageFrame) :
    numReads (LFU s page).events = numReads s.events := (lfu_ok s page).2.2.2

theorem clock_reads (s : BMState) (page : PageFrame) :
    numReads (CLOCK s page).events = numReads s.events := (clock_ok s page).2.2.2

/-- The invariant survives an eviction: the pool was full, no resident
page equals the incoming one, and the policy touched at most one slot. -/
theorem poolInv_evict (s s1 : BMState) (p : Int)
    (hOL : s.isOpen = true → s.frames ≠ []) (_hPre : PrefixOcc s.frames)
    (hDis : DistinctOcc s.frames) (hRA : ReadAcct s)
    (hso : s.isOpen = true)
    (hocc0 : (fr s.frames 0).pageNum ≠ -1)
    (hp : 0 ≤ p)
    (hfull : ∀ k, k < s.frames.length →
      (fr s.frames k).pageNum ≠ -1 ∧ (fr s.frames k).pageNum ≠ p)
    (hframes : FramesUpd s.frames s1.frames p)
    (hopen : s1.isOpen = s.isOpen)
    (hrear : s1.rearIndex = s.rearIndex + 1)
    (hreads : numReads s1.events = numReads s.events + 1) :
    PoolInv s1 := by
  obtain ⟨hlen, v, hv_ne, hv⟩ := hframes
  have hlen_pos : 0 < s.frames.length := by
    have := hOL hso
    cases hfs : s.frames with
    | nil => exact absurd hfs this
    | cons a l => simp [hfs]
  have hall : ∀ k, k < s1.frames.length → (fr s1.frames k).pageNum ≠ -1 := by
    intro k hk
    by_cases hkv : k = v
    · subst hkv
      cases hv with
      | inl h2 => rw [h2]; omega
      | inr h2 => rw [h2]; exact (hfull k (by omega)).1
    · rw [hv_ne k hkv]
      exact (hfull k (by omega)).1
  have hval : ∀ k, k < s1.frames.length → k ≠ v →
      (fr s1.frames k).pageNum ≠ p := by
    intro k hk hkv
    rw [hv_ne k hkv]
    exact (hfull k (by omega)).2
  refine ⟨?_, ?_, ?_, ?_, ?_⟩
  · intro _
    intro hnil
    rw [hnil] at hlen
    simp at hlen
    omega
  · intro i j hij hj _
    exact hall i (by omega)
  · intro a b ha hb hab hocca
    by_cases hbv : b = v
    · subst hbv
      have hav : a ≠ b := hab
      cases hv with
      | inl h2 =>
          rw [h2]
          exact hval a ha hab
      | inr h2 =>
          rw [h2, hv_ne a hab]
          exact hDis a b (by omega) (by omega) hab
            (by rw [hv_ne a hab] at hocca; exact hocca)
    · by_cases hav : a = v
      · subst hav
        rw [hv_ne b hbv]
        cases hv with
        | inl h2 =>
            rw [h2]
            intro he
            exact (hfull b (by omega)).2 he.symm
        | inr h2 =>
            rw [h2]
            rw [h2] at hocca
            exact hDis a b (by omega) (by omega) hab hocca
      · rw [hv_ne a hav, hv_ne b hbv]
        rw [hv_ne a hav] at hocca
        exact hDis a b (by omega) (by omega) hab hocca
  · rw [hopen, hso]
    intro _
    constructor
    · intro hempty
      exact absurd hempty (hall 0 (by omega))
    · intro _
      rw [hrear, hreads]
      have := (hRA.1 hso).2 hocc0
      push_cast
      push_cast at this
      omega
  · intro hx
    rw [hopen, hso] at hx
    cases hx

theorem installFrame_pageNum (f : PageFrame) (p : Int) (d : Data) (hn : Int) :
    (installFrame f p d hn).pageNum = p := rfl

theorem firstFrame_pageNum (f : PageFrame) (p : Int) (d : Data) :
    (firstFrame f p d).pageNum = p := rfl

theorem touchFrame_pageNum (st : ReplacementStrategy) (f : PageFrame) (h1 : Int) :
    (touchFrame st f h1).pageNum = f.pageNum := by
  cases st <;> rfl

/-- `pinPage` preserves the pool invariant. -/
theorem pin_inv (s : BMState) (p : Int) (rc : RC) (s1 : BMState)
    (hInv : PoolInv s) (h : pinPage s p = some (rc, s1)) : PoolInv s1 := by
  obtain ⟨hOL, hPre, hDis, hRA⟩ := hInv
  unfold pinPage at h
  by_cases ho : s.isOpen = false
  · rw [if_pos ho] at h
    injection h with h
    injection h with h1 h2
    subst h2
    exact ⟨hOL, hPre, hDis, hRA⟩
  · rw [if_neg ho] at h
    have hso : s.isOpen = true := by revert ho; cases s.isOpen <;> simp
    by_cases hneg : p < 0
    · rw [if_pos hneg] at h
      injection h with h
      injection h with h1 h2
      subst h2
      exact ⟨hOL, hPre, hDis, hRA⟩
    · rw [if_neg hneg] at h
      have hp : 0 ≤ p := not_lt.mp hneg
      by_cases h0 : (fr s.frames 0).pageNum ≠ -1
      · rw [if_pos h0] at h
        cases hscan : pinScan s.frames p with
        | bootstrap j =>
            rw [hscan] at h
            dsimp only at h
            injection h with h
            injection h with h1 h2
            subst h2
            obtain ⟨-, hjlt, hjempty, hjfirst⟩ :=
              pinScanAux_bootstrap s.frames p s.frames.length 0 j hscan
            have hjlt' : j < s.frames.length := by omega
            have hocc_lt : ∀ k, k < s.frames.length →
                (fr s.frames k).pageNum ≠ -1 → k < j := by
              intro k hk hocc
              by_contra hge
              exact (hPre j k (by omega) hk hocc) hjempty
            have hjne0 : j ≠ 0 := by
              intro hj0
              rw [hj0] at hjempty
              exact h0 hjempty
            have hocc_new : ∀ k, k < s.frames.length → k ≤ j →
                (fr (s.frames.set j (installFrame (fr s.frames j) p (s.store p)
                  (if s.strategy = RS_CLOCK then 1
                   else if s.strategy = RS_LRU then s.hit + 1
                   else (fr s.frames j).hitNum))) k).pageNum ≠ -1 := by
              intro k hk hkj
              by_cases hkj' : k = j
              · subst hkj'
                rw [fr_set_eq _ _ _ hjlt', installFrame_pageNum]
                omega
              · rw [fr_set_ne _ _ _ _ hkj']
                exact (hjfirst k (Nat.zero_le k) (by omega)).1
            refine ⟨?_, ?_, ?_, ?_, ?_⟩
            · intro _ hnil
              have hlen := congrArg List.length hnil
              rw [List.length_set] at hlen
              simp only [List.length_nil] at hlen
              omega
            · intro a b hab hb hocc
              rw [List.length_set] at hb
              by_cases hbj : b = j
              · subst hbj
                exact hocc_new a (by omega) hab
              · rw [fr_set_ne _ _ _ _ hbj] at hocc
                have hbj' : b < j := hocc_lt b hb hocc
                exact hocc_new a (by omega) (by omega)
            · intro a b ha hb hab hocca
              rw [List.length_set] at ha hb
              have hside : ∀ k, k < s.frames.length → k ≠ j →
                  (fr s.frames k).pageNum ≠ p := by
                intro k hk hkj
                by_cases hocc : (fr s.frames k).pageNum = -1
                · rw [hocc]; omega
                · exact (hjfirst k (Nat.zero_le k) (hocc_lt k hk hocc)).2
              by_cases haj : a = j
              · subst haj
                rw [fr_set_eq _ _ _ hjlt', installFrame_pageNum]
                rw [fr_set_ne _ _ _ _ (Ne.symm hab)]
                intro he
                exact hside b hb (Ne.symm hab) he.symm
              · rw [fr_set_ne _ _ _ _ haj] at hocca ⊢
                by_cases hbj : b = j
                · subst hbj
                  rw [fr_set_eq _ _ _ hjlt', installFrame_pageNum]
                  exact hside a ha haj
                · rw [fr_set_ne _ _ _ _ hbj]
                  exact hDis a b ha hb hab hocca
            · intro _
              constructor
              · intro hempty
                rw [fr_set_ne _ _ _ _ (Ne.symm hjne0)] at hempty
                exact (h0 hempty).elim
              · intro _
                have hbase := (hRA.1 hso).2 h0
                dsimp only
                rw [numReads_append, numReads_read]
                push_cast
                push_cast at hbase
                omega
            · intro hx
              have hx2 : s.isOpen = false := hx
              rw [hso] at hx2
              cases hx2
        | hitAt j =>
            rw [hscan] at h
            dsimp only at h
            injection h with h
            injection h with h1 h2
            subst h2
            exact poolInv_of_same s _ (List.length_set _ _ _)
              (pageNums_set_same s.frames j _ (touchFrame_pageNum _ _ _))
              rfl rfl rfl ⟨hOL, hPre, hDis, hRA⟩
        | full =>
            rw [hscan] at h
            dsimp only at h
            have hfull : ∀ k, k < s.frames.length →
                (fr s.frames k).pageNum ≠ -1 ∧ (fr s.frames k).pageNum ≠ p := by
              intro k hk
              exact pinScanAux_full s.frames p s.frames.length 0 hscan k
                (Nat.zero_le k) (by omega)
            cases hstrat : s.strategy with
            | RS_FIFO =>
                rw [hstrat] at h
                rw [Option.map_eq_some'] at h
                obtain ⟨s2, hf, hpair⟩ := h
                injection hpair with h1 h2
                subst h2
                have pol := fifo_ok _ _ _ hf
                refine poolInv_evict s s2 p hOL hPre hDis hRA hso h0 hp hfull
                  pol.1 pol.2.1 pol.2.2.1 ?_
                rw [pol.2.2.2]
                simp [numReads_append, numReads_read]
            | RS_LRU =>
                rw [hstrat] at h
                injection h with h
                injection h with h1 h2
                subst h2
                refine poolInv_evict s _ p hOL hPre hDis hRA hso h0 hp hfull
                  (lru_ok _ _).1 (lru_ok _ _).2.1 (lru_ok _ _).2.2.1 ?_
                rw [lru_reads]
                simp [numReads_append, numReads_read]
            | RS_CLOCK =>
                rw [hstrat] at h
                injection h with h
                injection h with h1 h2
                subst h2
                refine poolInv_evict s _ p hOL hPre hDis hRA hso h0 hp hfull
                  (clock_ok _ _).1 (clock_ok _ _).2.1 (clock_ok _ _).2.2.1 ?_
                rw [clock_reads]
                simp [numReads_append, numReads_read]
            | RS_LFU =>
                rw [hstrat] at h
                injection h with h
                injection h with h1 h2
                subst h2
                refine poolInv_evict s _ p hOL hPre hDis hRA hso h0 hp hfull
                  (lfu_ok _ _).1 (lfu_ok _ _).2.1 (lfu_ok _ _).2.2.1 ?_
                rw [lfu_reads]
                simp [numReads_append, numReads_read]
            | RS_LRU_K =>
                rw [hstrat] at h
                injection h with h
                injection h with h1 h2
                subst h2
                refine poolInv_evict s _ p hOL hPre hDis hRA hso h0 hp hfull
                  (lruk_ok _ _).1 (lruk_ok _ _).2.1 (lruk_ok _ _).2.2.1 ?_
                rw [lruk_reads]
                simp [numReads_append, numReads_read]
      · rw [if_neg h0] at h
        dsimp only at h
        injection h with h
        injection h with h1 h2
        subst h2
        have h0' : (fr s.frames 0).pageNum = -1 := not_ne_iff.mp h0
        have hlen_pos : 0 < s.frames.length := by
          have := hOL hso
          cases hfs : s.frames with
          | nil => exact absurd hfs this
          | cons a l => simp [hfs]
        have hallempty : ∀ k, k < s.frames.length → (fr s.frames k).pageNum = -1 := by
          intro k hk
          by_contra hocc
          exact (hPre 0 k (Nat.zero_le k) hk hocc) h0'
        refine ⟨?_, ?_, ?_, ?_, ?_⟩
        · intro _ hnil
          have hlen := congrArg List.length hnil
          rw [List.length_set] at hlen
          simp only [List.length_nil] at hlen
          omega
        · intro a b hab hb hocc
          rw [List.length_set] at hb
          by_cases haz : a = 0
          · subst haz
            rw [fr_set_eq _ _ _ hlen_pos, firstFrame_pageNum]
            omega
          · have hbz : b ≠ 0 := by omega
            rw [fr_set_ne _ _ _ _ hbz] at hocc
            exact absurd (hallempty b hb) hocc
        · intro a b ha hb hab hocca
          rw [List.length_set] at ha hb
          by_cases haz : a = 0
          · subst haz
            rw [fr_set_eq _ _ _ hlen_pos, firstFrame_pageNum]
            rw [fr_set_ne _ _ _ _ (Ne.symm hab)]
            rw [hallempty b hb]
            omega
          · rw [fr_set_ne _ _ _ _ haz] at hocca
            exact absurd (hallempty a ha) hocca
        · intro _
          constructor
          · intro hempty
            rw [fr_set_eq _ _ _ hlen_pos, firstFrame_pageNum] at hempty
            omega
          · intro _
            have hbase := (hRA.1 hso).1 h0'
            dsimp only
            rw [numReads_append, numReads_read, hbase.2]
            rfl
        · intro hx
          have hx2 : s.isOpen = false := hx
          rw [hso] at hx2
          cases hx2

theorem fr_fresh (strat : ReplacementStrategy) (n : Nat) (store : Int → Data)
    (i : Nat) : fr (freshInit strat n store).frames i = emptyFrame :=
  fr_replicate n i

/-- The invariant holds right after `initBufferPool` in a fresh process. -/
theorem poolInv_fresh (strat : ReplacementStrategy) (n : Nat) (store : Int → Data)
    (hn : 0 < n) : PoolInv (freshInit strat n store) := by
  refine ⟨?_, ?_, ?_, ?_, ?_⟩
  · intro _ hnil
    have hlen := congrArg List.length hnil
    simp only [freshInit, initBufferPool, List.length_replicate, List.length_nil] at hlen
    omega
  · intro i j hij hjl hocc
    rw [fr_fresh] at hocc
    exact absurd rfl hocc
  · intro i j hi hj hij hocc
    rw [fr_fresh] at hocc
    exact absurd rfl hocc
  · intro _
    constructor
    · intro _
      exact ⟨rfl, rfl⟩
    · intro hocc
      rw [fr_fresh] at hocc
      exact absurd rfl hocc
  · intro hx
    cases hx

/-- Every pool call preserves the invariant. -/
theorem applyOp_inv (s : BMState) (op : Op) (s1 : BMState)
    (hInv : PoolInv s) (h : applyOp s op = some s1) : PoolInv s1 := by
  cases op with
  | pin n =>
      dsimp only [applyOp] at h
      rw [Option.map_eq_some'] at h
      obtain ⟨r, hpin, h2⟩ := h
      exact h2 ▸ pin_inv s n r.1 r.2 hInv (by rw [hpin])
  | unpin n =>
      injection h with h2
      exact h2 ▸ unpin_inv s n hInv
  | mark n =>
      injection h with h2
      exact h2 ▸ markDirty_inv s n hInv
  | force n =>
      injection h with h2
      exact h2 ▸ forcePage_inv s n hInv
  | flush =>
      injection h with h2
      exact h2 ▸ flush_inv s hInv
  | shutdown =>
      injection h with h2
      exact h2 ▸ shutdown_inv s hInv

/-- The invariant holds after any call sequence that does not diverge. -/
theorem runOps_inv : ∀ (ops : List Op) (s s1 : BMState), PoolInv s →
    runOps s ops = some s1 → PoolInv s1 := by
  intro ops
  induction ops with
  | nil =>
      intro s s1 hInv h
      injection h with h2
      exact h2 ▸ hInv
  | cons op rest ih =>
      intro s s1 hInv h
      rw [runOps] at h
      cases hap : applyOp s op with
      | none => rw [hap] at h; cases h
      | some s2 =>
          rw [hap] at h
          dsimp only at h
          exact ih s2 s1 (applyOp_inv s op s2 hInv hap) h

/-- Any state reachable from a freshly initialized pool of positive
capacity satisfies the invariant. -/
theorem poolInv_reach (strat : ReplacementStrategy) (n : Nat) (store : Int → Data)
    (ops : List Op) (s : BMState) (hn : 0 < n)
    (h : runOps (freshInit strat n store) ops = some s) : PoolInv s :=
  runOps_inv ops _ s (poolInv_fresh strat n store hn) h

/-- Claim C1 (code evaluation at the failing input): under LRU with
capacity 2, after `pin 1, pin 2, unpin 2` frame 0 holds page 1 with
`fixCount = 1` (pinned) and frame 1 holds page 2 unpinned; the next
`pin 3` nevertheless selects frame 0 as the victim and overwrites the
pinned page 1 — the LRU victim search (lines 255-266) discards the
`fixCount = 0` filter of lines 246-253, so the selected victim does not
have `pinCount = 0` at selection time. -/
theorem c1_lru_selects_pinned_victim :
    ((runOps (freshInit RS_LRU 2 (fun v => v)) [Op.pin 1, Op.pin 2, Op.unpin 2]).map
      (fun s => s.frames.map (fun f => (f.pageNum, f.fixCount)))
      = some [(1, 1), (2, 0)])
    ∧ ((runOps (freshInit RS_LRU 2 (fun v => v))
        [Op.pin 1, Op.pin 2, Op.unpin 2, Op.pin 3]).map
      (fun s => s.frames.map (fun f => (f.pageNum, f.fixCount)))
      = some [(3, 1), (2, 0)]) := by
  constructor <;> decide

/-- Claim C2 (code evaluation at the failing input): under LRU with
capacity 2, `markDirty 1` succeeds, yet evicting page 1 via `pin 3`
produces no `writeBlock` at all — the whole trace is three reads — because
`LRU` overwrites the victim (including its dirty bit, lines 267-273)
before testing the dirty bit for the flush (line 275).  The dirty page 1
leaves the pool with no write ever issued for it. -/
theorem c2_lru_dirty_victim_never_written :
    ((runOps (freshInit RS_LRU 2 (fun v => v)) [Op.pin 1, Op.pin 2]).map
      (fun s => (markDirty s 1).1) = some RC_OK)
    ∧ ((runOps (freshInit RS_LRU 2 (fun v => v))
        [Op.pin 1, Op.pin 2, Op.mark 1, Op.unpin 1, Op.unpin 2, Op.pin 3]).map
      (fun s => (s.events, s.frames.map (fun f => f.pageNum)))
      = some ([IOEvent.readBlock 1, IOEvent.readBlock 2, IOEvent.readBlock 3],
              [3, 2])) := by
  constructor <;> decide

/-- Claim C3 (code evaluation at the failing input): with frame 0 holding
clean page 5 (buffer contents 5) and frame 1 holding dirty unpinned page 7
(buffer contents 7), `forceFlushPool` emits `writeBlock 7 (some 5)` — page
7's number paired with frame 0's buffer — because line 472 indexes the
frame array with the position in the collected-page list.  The dirty flag
clearing and the write counter are as specified, but the buffer written
under page 7 is not that frame's buffer (`some 7`). -/
theorem c3_flush_pairs_wrong_buffers :
    ((runOps (freshInit RS_FIFO 2 (fun v => v))
        [Op.pin 5, Op.pin 7, Op.mark 7, Op.unpin 5, Op.unpin 7, Op.flush]).map
      (fun s => (s.events, s.frames.map (fun f => (f.pageNum, f.dirtyBit, f.data))))
    = some ([IOEvent.readBlock 5, IOEvent.readBlock 7, IOEvent.writeBlock 7 (some 5)],
            [(5, 0, some 5), (7, 0, some 7)]))
    ∧ ((runOps (freshInit RS_FIFO 2 (fun v => v))
        [Op.pin 5, Op.pin 7, Op.mark 7, Op.unpin 5, Op.unpin 7, Op.flush]).map
      (fun s => s.writeCount) = some 1) := by
  constructor <;> decide

/-- Claim C5 (code evaluation at the failing input): under LFU with
capacity 2, evicting the dirty page 1 produces no write at all (trace is
three reads, write counter 0), while evicting the clean page 1 produces
`writeBlock 1` (write counter 1): line 194 tests `!dirtyBit`, so a dirty
LFU victim is never flushed and a clean one always is — the inverse of the
claimed condition. -/
theorem c5_lfu_flushes_clean_not_dirty :
    ((runOps (freshInit RS_LFU 2 (fun v => v))
        [Op.pin 1, Op.pin 2, Op.mark 1, Op.unpin 1, Op.unpin 2, Op.pin 3]).map
      (fun s => ((s.events, s.frames.map (fun f => f.pageNum)), s.writeCount))
      = some (([IOEvent.readBlock 1, IOEvent.readBlock 2, IOEvent.readBlock 3],
              [3, 2]), 0))
    ∧ ((runOps (freshInit RS_LFU 2 (fun v => v))
        [Op.pin 1, Op.pin 2, Op.unpin 1, Op.unpin 2, Op.pin 3]).map
      (fun s => ((s.events, s.frames.map (fun f => f.pageNum)), s.writeCount))
      = some (([IOEvent.readBlock 1, IOEvent.readBlock 2, IOEvent.readBlock 3,
               IOEvent.writeBlock 1 (some 1)], [3, 2]), 1)) := by
  constructor <;> decide

/-- Claim C6 (code evaluation at the failing input): capacity 1, page 1
pinned.  Under LRU, `pin 2` answers `RC_OK` and replaces the pinned
frame's contents with page 2 (no `CapacityExhausted` error exists in the
code and the frame does not remain unchanged); under FIFO the victim
search loops forever (modelled as `none`). -/
theorem c6_capacity_one_no_error :
    ((runOps (freshInit RS_LRU 1 (fun v => v)) [Op.pin 1]).map
      (fun s => ((fr s.frames 0).pageNum, (fr s.frames 0).fixCount,
                 (pinPage s 2).map (fun r => r.1)))
      = some (1, 1, some RC_OK))
    ∧ ((runOps (freshInit RS_LRU 1 (fun v => v)) [Op.pin 1, Op.pin 2]).map
      (fun s => ((fr s.frames 0).pageNum, (fr s.frames 0).fixCount))
      = some (2, 1))
    ∧ (runOps (freshInit RS_FIFO 1 (fun v => v)) [Op.pin 1, Op.pin 2]).isNone = true := by
  refine ⟨by decide, by decide, by decide⟩

/-- Claim C8 (counterexample to the claim as stated): shutting down an
already-closed pool answers `RC_BUFFER_POOL_SHUTDOWN_ERROR` (line 410),
which is a different return code from `RC_POOL_NOT_OPEN`, the code the
claim (and `unpinPage`) use for a closed pool. -/
theorem c8_closed_pool_error_code :
    ((runOps (freshInit RS_FIFO 1 (fun v => v)) [Op.shutdown]).map
      (fun s => ((shutdownBufferPool s).1, s.isOpen))
      = some (RC_BUFFER_POOL_SHUTDOWN_ERROR, false))
    ∧ RC_BUFFER_POOL_SHUTDOWN_ERROR ≠ RC_POOL_NOT_OPEN := by
  constructor <;> decide

/-- Claim C9 (counterexample to the claim as stated): immediately after
initialization, before any pin,  getNumReadIO  already answers
`rearIndex + 1 = 1`, not 0, although no block read has been performed. -/
theorem c9_initial_read_count :
    getNumReadIO (freshInit RS_FIFO 2 (fun v => v)) = 1
    ∧ numReads (freshInit RS_FIFO 2 (fun v => v)).events = 0
    ∧ (1 : Int) ≠ 0 := by
  refine ⟨by decide, by decide, by decide⟩

/-- Claim C4: in every state reachable from a freshly initialized pool of
positive capacity, no two distinct occupied frame slots hold the same page
number. -/
theorem c4_no_aliasing (strat : ReplacementStrategy) (n : Nat) (store : Int → Data)
    (ops : List Op) (s : BMState) (hn : 0 < n)
    (h : runOps (freshInit strat n store) ops = some s) :
    ∀ i j : Nat, i < s.frames.length → j < s.frames.length → i ≠ j →
      (fr s.frames i).pageNum ≠ -1 → (fr s.frames j).pageNum ≠ -1 →
      (fr s.frames i).pageNum ≠ (fr s.frames j).pageNum := by
  intro i j hi hj hij hocci _
  exact (poolInv_reach strat n store ops s hn h).2.2.1 i j hi hj hij hocci

/-- Witness for C4 at a concrete reachable state: after `pin 1, pin 2` on
a fresh FIFO pool of capacity 2 the two occupied frames hold different
page numbers. -/
theorem c4_no_aliasing_witness :
    (fr ((runOps (freshInit RS_FIFO 2 (fun v => v)) [Op.pin 1, Op.pin 2]).getD
      (freshInit RS_FIFO 2 (fun v => v))).frames 0).pageNum ≠
    (fr ((runOps (freshInit RS_FIFO 2 (fun v => v)) [Op.pin 1, Op.pin 2]).getD
      (freshInit RS_FIFO 2 (fun v => v))).frames 1).pageNum := by
  exact c4_no_aliasing RS_FIFO 2 (fun v => v) [Op.pin 1, Op.pin 2] _ (by decide) rfl
    0 1 (by decide) (by decide) (by decide) (by decide) (by decide)

/-- Claim C9 (amended): in every open reachable state of a pool of
positive capacity, before the first page is pinned (frame 0 still empty)
 getNumReadIO  answers 1 — not 0 — while no block read has happened; once
frame 0 is occupied,  getNumReadIO  equals the number of `readBlock` calls
performed since initialization (each miss adds one read, hits add none). -/
theorem c9_read_io_accounting (strat : ReplacementStrategy) (n : Nat)
    (store : Int → Data) (ops : List Op) (s : BMState) (hn : 0 < n)
    (h : runOps (freshInit strat n store) ops = some s) (hopen : s.isOpen = true) :
    ((fr s.frames 0).pageNum = -1 → getNumReadIO s = 1 ∧ numReads s.events = 0)
    ∧ ((fr s.frames 0).pageNum ≠ -1 → getNumReadIO s = (numReads s.events : Int)) := by
  have hRA := (poolInv_reach strat n store ops s hn h).2.2.2
  constructor
  · intro hempty
    obtain ⟨hrear, hreads⟩ := (hRA.1 hopen).1 hempty
    refine ⟨?_, hreads⟩
    unfold getNumReadIO
    rw [hrear]
    omega
  · intro hocc
    have hacc := (hRA.1 hopen).2 hocc
    unfold getNumReadIO
    exact hacc

/-- Witness for C9 at a concrete reachable state: after `pin 1, pin 2` on
a fresh FIFO pool of capacity 2,  getNumReadIO  equals the two reads that
were performed. -/
theorem c9_read_io_accounting_witness :
    getNumReadIO ((runOps (freshInit RS_FIFO 2 (fun v => v)) [Op.pin 1, Op.pin 2]).getD
      (freshInit RS_FIFO 2 (fun v => v)))
    = (numReads ((runOps (freshInit RS_FIFO 2 (fun v => v)) [Op.pin 1, Op.pin 2]).getD
      (freshInit RS_FIFO 2 (fun v => v))).events : Int) := by
  exact (c9_read_io_accounting RS_FIFO 2 (fun v => v) [Op.pin 1, Op.pin 2] _
    (by decide) rfl (by decide)).2 (by decide)

/-- Claim C7: `unpinPage` answers `RC_POOL_NOT_OPEN` on a closed pool,
`RC_PAGE_NOT_IN_FRAMELIST` when no frame holds the page,
`RC_PAGE_NOT_PINNED` when the frame holding it has `fixCount = 0`, and
otherwise decrements exactly that frame's `fixCount` by one and answers
`RC_OK` — stated for genuine page numbers (`0 ≤ n`) held by at most one
frame, which is how reachable pools look (see `c4_no_aliasing`). -/
theorem c7_unpin_spec (s : BMState) (n : Int) (_hn : 0 ≤ n)
    (huniq : ∀ i : Nat, i < s.frames.length → ∀ j : Nat, j < s.frames.length →
        (fr s.frames i).pageNum = n → (fr s.frames j).pageNum = n → i = j) :
    (s.isOpen = false → unpinPage s n = (RC_POOL_NOT_OPEN, s))
    ∧ (s.isOpen = true → (∀ i : Nat, i < s.frames.length → (fr s.frames i).pageNum ≠ n) →
        unpinPage s n = (RC_PAGE_NOT_IN_FRAMELIST, s))
    ∧ (∀ j : Nat, s.isOpen = true → j < s.frames.length → (fr s.frames j).pageNum = n →
        ((fr s.frames j).fixCount = 0 → unpinPage s n = (RC_PAGE_NOT_PINNED, s))
        ∧ (0 < (fr s.frames j).fixCount →
            unpinPage s n =
              (RC_OK, { s with frames := s.frames.set j (unpinFrame (fr s.frames j)) }))) := by
  refine ⟨?_, ?_, ?_⟩
  · intro ho
    unfold unpinPage
    rw [if_pos ho]
  · intro ho hnone
    unfold unpinPage
    rw [if_neg (by rw [ho]; simp)]
    have hfind : findFrame s.frames (fun f => decide (f.pageNum = n)) = none := by
      unfold findFrame
      apply scanFirst_eq_none
      intro k _ hk2
      simp only [decide_eq_false_iff_not]
      exact hnone k (by omega)
    rw [hfind]
  · intro j ho hj hpage
    have hfind : findFrame s.frames (fun f => decide (f.pageNum = n)) = some j := by
      unfold findFrame
      apply scanFirst_eq_some _ _ _ _ _ (Nat.zero_le j) (by omega)
        (by simp only [hpage, decide_eq_true_eq])
      intro k _ hk2
      simp only [decide_eq_false_iff_not]
      intro hk
      have := huniq k (by omega) j hj hk hpage
      omega
    constructor
    · intro hfix
      unfold unpinPage
      rw [if_neg (by rw [ho]; simp), hfind]
      dsimp only
      rw [if_neg (by omega)]
    · intro hfix
      unfold unpinPage
      rw [if_neg (by rw [ho]; simp), hfind]
      dsimp only
      rw [if_pos hfix]

/-- Witness for C7 at a concrete state: after `pin 1` on a fresh FIFO pool
of capacity 1, `unpinPage` succeeds and rewrites the frame's `fixCount`
from 1 to 0. -/
theorem c7_unpin_spec_witness :
    unpinPage ((runOps (freshInit RS_FIFO 1 (fun v => v)) [Op.pin 1]).getD
      (freshInit RS_FIFO 1 (fun v => v))) 1
    = (RC_OK,
       { (runOps (freshInit RS_FIFO 1 (fun v => v)) [Op.pin 1]).getD
           (freshInit RS_FIFO 1 (fun v => v)) with
         frames := ((runOps (freshInit RS_FIFO 1 (fun v => v)) [Op.pin 1]).getD
           (freshInit RS_FIFO 1 (fun v => v))).frames.set 0
           (unpinFrame (fr ((runOps (freshInit RS_FIFO 1 (fun v => v)) [Op.pin 1]).getD
               (freshInit RS_FIFO 1 (fun v => v))).frames 0)) }) := by
  have h := c7_unpin_spec ((runOps (freshInit RS_FIFO 1 (fun v => v)) [Op.pin 1]).getD
    (freshInit RS_FIFO 1 (fun v => v))) 1 (by decide) (by decide)
  exact (h.2.2 0 (by decide) (by decide) (by decide)).2 (by decide)

/-- Claim C10: on any pool state whose first empty frame (page number
sentinel −1) is slot `j`, `markDirty` with page number −1 succeeds and
sets that empty slot's dirty bit, so a frame can be empty and dirty at the
same time. -/
theorem c10_markDirty_empty_frame (s : BMState) (j : Nat) (hj : j < s.frames.length)
    (hempty : (fr s.frames j).pageNum = -1)
    (hfirst : ∀ k : Nat, k < j → (fr s.frames k).pageNum ≠ -1) :
    (markDirty s (-1)).1 = RC_OK
    ∧ (markDirty s (-1)).2.frames = s.frames.set j (dirtyFrame (fr s.frames j))
    ∧ (fr (markDirty s (-1)).2.frames j).pageNum = -1
    ∧ (fr (markDirty s (-1)).2.frames j).dirtyBit = 1 := by
  have hfind : findFrame s.frames (fun f => decide (f.pageNum = -1)) = some j := by
    unfold findFrame
    apply scanFirst_eq_some _ _ _ _ _ (Nat.zero_le j) (by omega)
      (by simp only [hempty, decide_eq_true_eq])
    intro k _ hk2
    simp only [decide_eq_false_iff_not]
    exact hfirst k hk2
  unfold markDirty
  rw [hfind]
  dsimp only
  refine ⟨rfl, rfl, ?_, ?_⟩
  · rw [fr_set_eq _ _ _ hj]
    exact hempty
  · rw [fr_set_eq _ _ _ hj]
    rfl

/-- Witness for C10 at a concrete state: on a freshly initialized pool of
capacity 2 (both frames empty), `markDirty` with page −1 dirties frame 0,
which stays empty. -/
theorem c10_markDirty_empty_frame_witness :
    (markDirty (freshInit RS_FIFO 2 (fun v => v)) (-1)).1 = RC_OK
    ∧ (markDirty (freshInit RS_FIFO 2 (fun v => v)) (-1)).2.frames
      = (freshInit RS_FIFO 2 (fun v => v)).frames.set 0
        (dirtyFrame (fr (freshInit RS_FIFO 2 (fun v => v)).frames 0))
    ∧ (fr (markDirty (freshInit RS_FIFO 2 (fun v => v)) (-1)).2.frames 0).pageNum = -1
    ∧ (fr (markDirty (freshInit RS_FIFO 2 (fun v => v)) (-1)).2.frames 0).dirtyBit = 1 := by
  exact c10_markDirty_empty_frame _ 0 (by decide) (by decide)
    (fun k hk => absurd hk (Nat.not_lt_zero k))

theorem fr_eq_getElem (fs : List PageFrame) (i : Nat) (hi : i < fs.length) :
    fr fs i = fs[i] := by
  simp [fr, List.getD, List.getElem?_eq_getElem hi]

theorem getD_of_mem (l : List Int) (a : Int) (h : a ∈ l) :
    ∃ k, k < l.length ∧ l.getD k 0 = a := by
  obtain ⟨i, hi, heq⟩ := List.mem_iff_getElem.mp h
  exact ⟨i, hi, by simp [List.getD, List.getElem?_eq_getElem hi]; exact heq⟩

theorem mem_flushWrites (fs1 : List PageFrame) (pages : List Int) (k : Nat)
    (hk : k < pages.length) :
    IOEvent.writeBlock (pages.getD k 0) (fr fs1 k).data ∈ flushWrites fs1 pages := by
  unfold flushWrites
  exact List.mem_map_of_mem _ (List.mem_range.mpr hk)

/-- Claim C8 (amended): `shutdownBufferPool` fails with
`RC_PINNED_PAGES_IN_BUFFER` exactly when some frame has `fixCount ≠ 0` at
call time, and then changes nothing; when every frame is unpinned it
answers `RC_OK`, performs the flush (one write-counter increment per dirty
frame and a `writeBlock` under each dirty frame's page number), frees the
frame array and closes the pool; a shutdown of an already-closed pool
fails with `RC_BUFFER_POOL_SHUTDOWN_ERROR` — a distinct code from
`RC_POOL_NOT_OPEN`, which the claim as stated expected. -/
theorem c8_shutdown_spec (s : BMState) :
    (s.isOpen = false → shutdownBufferPool s = (RC_BUFFER_POOL_SHUTDOWN_ERROR, s))
    ∧ (s.isOpen = true → (∃ i, i < s.frames.length ∧ (fr s.frames i).fixCount ≠ 0) →
        shutdownBufferPool s = (RC_PINNED_PAGES_IN_BUFFER, s))
    ∧ (s.isOpen = true → (∀ i : Nat, i < s.frames.length → (fr s.frames i).fixCount = 0) →
        (shutdownBufferPool s).1 = RC_OK
        ∧ (shutdownBufferPool s).2.isOpen = false
        ∧ (shutdownBufferPool s).2.frames = []
        ∧ (shutdownBufferPool s).2.writeCount
            = s.writeCount + (dirtyIdxs s.frames).length
        ∧ ∀ i : Nat, i < s.frames.length → (fr s.frames i).dirtyBit = 1 →
            ∃ d, IOEvent.writeBlock ((fr s.frames i).pageNum) d
              ∈ (shutdownBufferPool s).2.events) := by
  refine ⟨?_, ?_, ?_⟩
  · intro ho
    unfold shutdownBufferPool
    rw [if_pos ho]
  · intro ho hex
    obtain ⟨i, hi, hfix⟩ := hex
    unfold shutdownBufferPool
    rw [if_neg (by rw [ho]; simp)]
    have hany : s.frames.any (fun f => decide (f.fixCount ≠ 0)) = true := by
      rw [List.any_eq_true]
      refine ⟨fr s.frames i, ?_, by simp [hfix]⟩
      rw [fr_eq_getElem s.frames i hi]
      exact List.getElem_mem hi
    rw [if_pos hany]
  · intro ho hall
    have hany : ¬ s.frames.any (fun f => decide (f.fixCount ≠ 0)) = true := by
      rw [List.any_eq_true]
      rintro ⟨x, hx, hpx⟩
      obtain ⟨i, hi, rfl⟩ := List.mem_iff_getElem.mp hx
      rw [← fr_eq_getElem s.frames i hi, hall i hi] at hpx
      simp at hpx
    have hshut : shutdownBufferPool s
        = (RC_OK, { (forceFlushPool s).2 with frames := [], isOpen := false }) := by
      unfold shutdownBufferPool
      rw [if_neg (by rw [ho]; simp), if_neg hany]
    have hflush : (forceFlushPool s).2
        = { s with frames := clearDirty s.frames (dirtyIdxs s.frames),
                   writeCount := s.writeCount + (dirtyIdxs s.frames).length,
                   events := s.events ++ flushWrites
                     (clearDirty s.frames (dirtyIdxs s.frames))
                     ((dirtyIdxs s.frames).map (fun i => (fr s.frames i).pageNum)),
                   store := applyWrites s.store (flushWrites
                     (clearDirty s.frames (dirtyIdxs s.frames))
                     ((dirtyIdxs s.frames).map (fun i => (fr s.frames i).pageNum))) } := by
      unfold forceFlushPool
      rw [if_neg (by rw [ho]; simp)]
    rw [hshut, hflush]
    refine ⟨rfl, rfl, rfl, rfl, ?_⟩
    intro i hi hdirty
    have hmem_idx : i ∈ dirtyIdxs s.frames := by
      unfold dirtyIdxs
      rw [List.mem_filter]
      exact ⟨List.mem_range.mpr hi, by simp [hall i hi, hdirty]⟩
    have hmem_pg : (fr s.frames i).pageNum
        ∈ (dirtyIdxs s.frames).map (fun k => (fr s.frames k).pageNum) :=
      List.mem_map_of_mem _ hmem_idx
    obtain ⟨k, hk, hgetd⟩ := getD_of_mem _ _ hmem_pg
    refine ⟨(fr (clearDirty s.frames (dirtyIdxs s.frames)) k).data, ?_⟩
    rw [← hgetd]
    exact List.mem_append_right _ (mem_flushWrites _ _ k hk)

/-- Witness for C8 at a concrete state: a pool of capacity 1 whose only
frame holds dirty, unpinned page 1 shuts down successfully, closing the
pool and flushing the one dirty frame. -/
theorem c8_shutdown_spec_witness :
    (shutdownBufferPool ((runOps (freshInit RS_FIFO 1 (fun v => v))
        [Op.pin 1, Op.mark 1, Op.unpin 1]).getD (freshInit RS_FIFO 1 (fun v => v)))).1
      = RC_OK
    ∧ (shutdownBufferPool ((runOps (freshInit RS_FIFO 1 (fun v => v))
        [Op.pin 1, Op.mark 1, Op.unpin 1]).getD (freshInit RS_FIFO 1 (fun v => v)))).2.isOpen
      = false := by
  have h := (c8_shutdown_spec ((runOps (freshInit RS_FIFO 1 (fun v => v))
    [Op.pin 1, Op.mark 1, Op.unpin 1]).getD (freshInit RS_FIFO 1 (fun v => v)))).2.2
    (by decide) (by decide)
  exact ⟨h.1, h.2.1⟩

end BufMgr
